import Mathlib

set_option maxRecDepth 100000

/-!
Shallow embedding of the `libchain` repository (src/blockchain.py, src/library.py):
per-item hash chains (`Chain`), the chain registry (`Library`) and the signature
checker of the node (`Node.verify_block`), together with proofs of the claims
about them.

Conventions of the embedding:
* Python dictionaries are association lists `List (String × JVal)` in insertion
  order; `dictLookup` is `d[k]` returning `none` where Python raises `KeyError`,
  and `dictMerge` is the dict merge `{**a, **b}` (later keys win, order of `a`
  kept for shared keys).
* JSON-able Python values are `JVal` (`None`, `int`, `str`); the program stores
  nothing else in blocks.
* Fallible operations return `Option`: `none` models a raised Python exception
  (`KeyError`, `IndexError`, `UnboundLocalError`, `ValueError`, ...).
* Reads of the wall clock (`datetime.now().strftime(...)`) are modelled by an
  explicit timestamp argument `ts`.
* `hashlib.sha256(...).hexdigest()` is foreign library code; it is modelled by
  an executable deterministic stand-in `sha256hex` over the same serialized
  string `json.dumps(block, sort_keys=True)`, which *is* modelled faithfully
  (keys serialized in sorted order).  No claim depends on the digest values,
  only on the hash being a function of the serialized block.
-/

/-- JSON-able Python values stored in blocks: `None`, `int`, `str`. -/
inductive JVal where
  | jnull : JVal
  | jnat : Nat → JVal
  | jstr : String → JVal
deriving DecidableEq, Repr

/-- Python truthiness of a `JVal` (`None`, `0`, `""` are falsy). -/
def jtruthy : JVal → Bool
  | JVal.jnull => false
  | JVal.jnat n => if n = 0 then false else true
  | JVal.jstr s => if s = "" then false else true

/-- A block is a Python dict: an association list in insertion order. -/
abbrev Block := List (String × JVal)

/-- Python `d[k]` on a dict modelled as an association list (`none` = `KeyError`). -/
def dictLookup (k : String) : List (String × JVal) → Option JVal
  | [] => none
  | p :: rest => if p.1 = k then some p.2 else dictLookup k rest

/-- Whether a key occurs in the association list. -/
def keyMem (k : String) (l : List (String × JVal)) : Bool :=
  l.any (fun p => p.1 == k)

/-- Python dict merge `{**a, **b}`: keys of `a` in their order (values from `b`
when shared), followed by the keys of `b` not in `a`. -/
def dictMerge (a b : List (String × JVal)) : List (String × JVal) :=
  a.map (fun p => (p.1, (dictLookup p.1 b).getD p.2)) ++
    b.filter (fun p => !keyMem p.1 a)

/-- Serialization of one `JVal` as `json.dumps` renders it (string escaping is
not modelled; block fields in this program contain no characters needing it). -/
def renderJVal : JVal → String
  | JVal.jnull => "null"
  | JVal.jnat n => toString n
  | JVal.jstr s => "\"" ++ s ++ "\""

/-- Serialization of the entries of a dict, `json.dumps` style (", " and ": "
separators). -/
def renderEntries : List (String × JVal) → String
  | [] => ""
  | [p] => "\"" ++ p.1 ++ "\": " ++ renderJVal p.2
  | p :: rest => "\"" ++ p.1 ++ "\": " ++ renderJVal p.2 ++ ", " ++ renderEntries rest

/-- Serialization of a whole dict. -/
def renderJson (b : List (String × JVal)) : String :=
  "\x7b" ++ renderEntries b ++ "\x7d"

/-- Lexicographic order on strings as lists of characters, by Unicode code
point — the order in which Python sorts `str` keys. -/
def charListLe : List Char → List Char → Bool
  | [], _ => true
  | _ :: _, [] => false
  | a :: as, b :: bs =>
    if a.toNat < b.toNat then true
    else if b.toNat < a.toNat then false
    else charListLe as bs

/-- Key order used by `json.dumps(..., sort_keys=True)`: compare entries by key. -/
def keyLe (p q : String × JVal) : Prop := charListLe p.1.data q.1.data = true

instance : DecidableRel keyLe := fun p q =>
  inferInstanceAs (Decidable (charListLe p.1.data q.1.data = true))


/-- `json.dumps(..., sort_keys=True)` serializes the entries in sorted key
order; program dicts have no duplicate keys, so any correct sort gives the
serialization `json.dumps` produces. -/
def sortByKey (b : List (String × JVal)) : List (String × JVal) :=
  List.insertionSort keyLe b

/-- One lowercase hex digit. -/
def hexChar (n : Nat) : Char :=
  if n < 10 then Char.ofNat (48 + n) else Char.ofNat (87 + n)

/-- Fuel-driven lowercase-hex rendering of a natural number (most significant
digit first); 64 digits of fuel cover every number below `2 ^ 256`. -/
def natToHexAux : Nat → Nat → List Char → List Char
  | 0, _, acc => acc
  | fuel + 1, n, acc =>
    if n < 16 then hexChar n :: acc
    else natToHexAux fuel (n / 16) (hexChar (n % 16) :: acc)

/-- Executable deterministic stand-in for `hashlib.sha256(s).hexdigest()` from
the Python standard library (foreign code): a fold over the bytes of `s`
reduced mod `2 ^ 256`, rendered in lowercase hex with a leading `0`.  Always a
nonempty (hence Python-truthy) string; no claim depends on the digest values,
only on the digest being a function of `s`. -/
def sha256hex (s : String) : String :=
  String.mk ('0' :: natToHexAux 64
    (s.data.foldl (fun a c => (a * 131 + c.toNat + 11) % (2 ^ 256)) 5381) [])

/-- `Chain`: one item's blockchain (src/blockchain.py).  `_chain` is the list of
blocks, `id` the externally assigned identifier (`id: any` in the source). -/
structure Chain where
  id : JVal
  _chain : List Block
deriving DecidableEq, Repr

/-- `Chain.hash`: `sha256(json.dumps(block, sort_keys=True).encode()).hexdigest()`. -/
def Chain.hash (block : Block) : String :=
  sha256hex (renderJson (sortByKey block))

/-- `Chain.chain` property: returns `_chain`. -/
def Chain.chain (c : Chain) : List Block := c._chain

/-- `Chain.last_block` property: `self._chain[-1]`; `none` models the
`IndexError` on an empty chain. -/
def Chain.last_block (c : Chain) : Option Block := c._chain.getLast?

/-- `Chain.new_block(previous_hash, data=None)`:
builds `header = {index, previous_hash or hash(chain[-1]), timestamp}`, then
`if data: block = {**header, **data}`, appends and returns the block.
`none` models the `IndexError` when `previous_hash` is falsy on an empty chain,
and the `UnboundLocalError` on `self._chain.append(block)` when `data` is falsy
(the local `block` was never assigned). -/
def Chain.new_block (c : Chain) (previous_hash : JVal) (data : List (String × JVal))
    (ts : String) : Option (Chain × Block) :=
  match (if jtruthy previous_hash then some previous_hash
         else (c.chain.getLast?).map (fun b => JVal.jstr (Chain.hash b))) with
  | none => none
  | some ph =>
    if data = [] then none
    else
      let block := dictMerge
        [("index", JVal.jnat (c._chain.length + 1)),
         ("previous_hash", ph),
         ("timestamp", JVal.jstr ts)] data
      some ({ c with _chain := c._chain ++ [block] }, block)

/-- `Chain.__init__(id, data, exported)`: starts from an empty `_chain`; if
`exported` is given, appends it as the genesis block, otherwise calls
`new_block(previous_hash=1, data=data)`.  `none` models an exception escaping
the constructor. -/
def Chain.init (id : JVal) (data : List (String × JVal)) (exported : Option Block)
    (ts : String) : Option Chain :=
  match exported with
  | some e => some { id := id, _chain := [e] }
  | none => (Chain.new_block { id := id, _chain := [] } (JVal.jnat 1) data ts).map Prod.fst

/-- Loop body of `Chain.valid_chain`: walks the chain from index 1, comparing
`block['previous_hash']` (`none` = `KeyError` when absent) with the recomputed
hash of the previous block. -/
def validGo (last : Block) : List Block → Option Bool
  | [] => some true
  | b :: rest =>
    match dictLookup "previous_hash" b with
    | none => none
    | some ph =>
      if ph ≠ JVal.jstr (Chain.hash last) then some false else validGo b rest

/-- `Chain.valid_chain(chain)`: `none` models the `IndexError` of
`chain[0]` on an empty list, and the `KeyError` on a block without
`previous_hash`. -/
def Chain.valid_chain : List Block → Option Bool
  | [] => none
  | b :: rest => validGo b rest

/-- `Library` (src/library.py): the registry, a list of `Chain`s. -/
structure Library where
  _library : List Chain
deriving DecidableEq, Repr

/-- Loop of `Library.add_book`: is some stored book's id equal to `idv`? -/
def hasId (idv : JVal) : List Chain → Bool
  | [] => false
  | b :: rest => if b.id = idv then true else hasId idv rest

/-- `Library.add_book(new_book)`: returns `False` if a book with the same id is
already stored, otherwise appends and returns `True`. -/
def Library.add_book (lib : Library) (new_book : Chain) : Library × Bool :=
  if hasId new_book.id lib._library then (lib, false)
  else ({ _library := lib._library ++ [new_book] }, true)

/-- The transfer-request dict passed to `Library.create_exchange`; the source
reads exactly these five keys. -/
structure ExchangeData where
  book_id : JVal
  sender : JVal
  recipient : JVal
  pubkey : JVal
  txsig : JVal
deriving DecidableEq, Repr

/-- The rebuilt payload dict of `create_exchange`:
`{'sender': ..., 'recipient': ..., 'pubkey': ..., 'txsig': ...}`. -/
def exchPayload (d : ExchangeData) : List (String × JVal) :=
  [("sender", d.sender), ("recipient", d.recipient),
   ("pubkey", d.pubkey), ("txsig", d.txsig)]

/-- Loop of `Library.create_exchange`: finds the first book whose id matches and
whose `last_block.get('recipient')` equals the declared sender, appends the new
block there; `none` models an exception (`IndexError` of `last_block` on an
empty chain).  Returns the updated book list and the boolean result. -/
def exchangeLoop (d : ExchangeData) (ts : String) : List Chain → Option (List Chain × Bool)
  | [] => some ([], false)
  | book :: rest =>
    if book.id = d.book_id then
      match book.last_block with
      | none => none
      | some lb =>
        if (dictLookup "recipient" lb).getD JVal.jnull = d.sender then
          match Chain.new_block book (JVal.jstr (Chain.hash lb)) (exchPayload d) ts with
          | none => none
          | some (book2, _) => some (book2 :: rest, true)
        else
          (exchangeLoop d ts rest).map (fun r => (book :: r.1, r.2))
    else
      (exchangeLoop d ts rest).map (fun r => (book :: r.1, r.2))

/-- `Library.create_exchange(data)`: returns `False` at once when
`data['sender'] == data['recipient']`, otherwise runs the book loop. -/
def Library.create_exchange (lib : Library) (d : ExchangeData) (ts : String) :
    Option (Library × Bool) :=
  if d.sender = d.recipient then some (lib, false)
  else (exchangeLoop d ts lib._library).map (fun r => ({ _library := r.1 }, r.2))

/-- Hex value of one character, as `bytes.fromhex` accepts them. -/
def hexDigitVal (c : Char) : Option Nat :=
  if 48 ≤ c.toNat ∧ c.toNat ≤ 57 then some (c.toNat - 48)
  else if 97 ≤ c.toNat ∧ c.toNat ≤ 102 then some (c.toNat - 87)
  else if 65 ≤ c.toNat ∧ c.toNat ≤ 70 then some (c.toNat - 55)
  else none

/-- Auxiliary of `bytesFromHex`: consumes pairs of hex digits. -/
def bytesFromHexAux : List Char → Option (List Nat)
  | [] => some []
  | [_] => none
  | c1 :: c2 :: rest =>
    match hexDigitVal c1, hexDigitVal c2, bytesFromHexAux rest with
    | some h, some l, some bs => some ((16 * h + l) :: bs)
    | _, _, _ => none

/-- `bytes.fromhex(s)` from the Python standard library: `none` models the
raised `ValueError` on a non-hex or odd-length string (the whitespace
tolerance of `fromhex` is not modelled; no claim exercises it). -/
def bytesFromHex (s : String) : Option (List Nat) :=
  bytesFromHexAux s.data

/-- A deserialized elliptic-curve public key of the external `cryptography`
library, modelled as its DER bytes. -/
structure ECPubKey where
  der : List Nat
deriving DecidableEq, Repr

/-- Abstract executable model of `serialization.load_der_public_key` from the
external `cryptography` library: accepts byte strings beginning with the ASN.1
SEQUENCE tag `0x30`, rejects the rest (`none` = raised `ValueError`).  No claim
depends on which byte strings are exactly accepted, only on acceptance being a
fallible deterministic function of the bytes. -/
def load_der_public_key (b : List Nat) : Option ECPubKey :=
  if b.head? = some 48 then some ⟨b⟩ else none

/-- The fixed authorization message `b'I have authorized this transaction.'`. -/
def authMessageBytes : List Nat :=
  "I have authorized this transaction.".data.map Char.toNat

/-- Abstract executable model of `pubkey.verify(...)` (ECDSA over SHA-256) from
the external `cryptography` library, as a deterministic boolean predicate
(`true` = the call returns, `false` = it raises, which `verify_block` catches).
No claim depends on its truth values. -/
def ecdsaVerify (k : ECPubKey) (sig msg : List Nat) : Bool :=
  (sig.foldl (fun a b => a + b) 0 + msg.foldl (fun a b => a + b) 0) % 7
    = (k.der.foldl (fun a b => a + b) 0) % 7

/-- `Node.verify_block(block)` (src/blockchain.py): decodes
`block['txsig']` and `block['pubkey']` *outside* the `try`, so `none` models
the `KeyError` / `TypeError` / `ValueError` those lines raise; only the
`pubkey.verify` call is wrapped in `try/except`, whose outcome is the returned
boolean. -/
def Node.verify_block (block : Block) : Option Bool :=
  match dictLookup "txsig" block with
  | some (JVal.jstr t) =>
    match bytesFromHex t with
    | some txsig =>
      match dictLookup "pubkey" block with
      | some (JVal.jstr p) =>
        match bytesFromHex p with
        | some pkb =>
          match load_der_public_key pkb with
          | some k => some (ecdsaVerify k txsig authMessageBytes)
          | none => none
        | none => none
      | _ => none
    | none => none
  | _ => none

/-- The linkage predicate of the spec from `prev` onwards: every later block's
`previous_hash` field equals the recomputed hash of its predecessor. -/
def linkedFrom (prev : Block) : List Block → Bool
  | [] => true
  | b :: rest =>
    if dictLookup "previous_hash" b = some (JVal.jstr (Chain.hash prev)) then
      linkedFrom b rest
    else false

/-- The hash-chain linkage invariant of the spec: the chain is nonempty, its
first block's `previous_hash` is the genesis sentinel `1`, and every later
block's `previous_hash` is the hash of its predecessor. -/
def chainLinked : List Block → Bool
  | [] => false
  | b :: rest =>
    if dictLookup "previous_hash" b = some (JVal.jnat 1) then linkedFrom b rest
    else false

/-- The current holder of an item per the spec's custody invariant:
`last_block.get('recipient')` (with Python's `None` default), `none` when the
chain has no block at all. -/
def currentHolder (c : Chain) : Option JVal :=
  (c._chain.getLast?).map (fun lb => (dictLookup "recipient" lb).getD JVal.jnull)

/-- A genesis payload of domain fields, as the spec's data model defines
payloads: only the keys `sender`, `recipient`, `pubkey`, `txsig`. -/
def domainPayload (data : List (String × JVal)) : Bool :=
  data.all (fun p =>
    p.1 == "sender" || p.1 == "recipient" || p.1 == "pubkey" || p.1 == "txsig")

/-- Registry states reachable through the core operations: the empty registry
of `Library.__init__`, adding a chain freshly created from an id and a domain
payload (`Chain.__init__` without an exported block, then `add_book`), and any
completed call of `create_exchange` (successful or failed). -/
inductive Reach : Library → Prop where
  | empty : Reach { _library := [] }
  | add (lib : Library) (id : JVal) (data : List (String × JVal)) (ts : String)
      (c : Chain) (hr : Reach lib) (hd : domainPayload data = true)
      (hc : Chain.init id data none ts = some c) :
      Reach (Library.add_book lib c).1
  | exch (lib lib2 : Library) (d : ExchangeData) (ts : String) (r : Bool)
      (hr : Reach lib) (he : Library.create_exchange lib d ts = some (lib2, r)) :
      Reach lib2

/-- The block `create_exchange` appends on success: the header built by
`new_block` (index, the hash of the previous last block, timestamp) merged with
the rebuilt four-field payload. -/
def exchBlock (book : Chain) (lb : Block) (d : ExchangeData) (ts : String) : Block :=
  dictMerge
    [("index", JVal.jnat (book._chain.length + 1)),
     ("previous_hash", JVal.jstr (Chain.hash lb)),
     ("timestamp", JVal.jstr ts)] (exchPayload d)


/-! ## Concrete inputs used by witnesses and counterexamples -/

/-- A genesis block as `/book/new` builds it: header plus `sender`/`recipient`. -/
def exGen : Block :=
  [("index", JVal.jnat 1), ("previous_hash", JVal.jnat 1),
   ("timestamp", JVal.jstr "t0"), ("sender", JVal.jnull), ("recipient", JVal.jstr "A")]

/-- A one-book library whose book `b1` is currently held by `A`. -/
def exBook : Chain := { id := JVal.jstr "b1", _chain := [exGen] }

/-- The library holding just `exBook`. -/
def exLib : Library := { _library := [exBook] }

/-- A transfer request of `b1` whose declared sender `B` is not the holder. -/
def exMismatch : ExchangeData :=
  { book_id := JVal.jstr "b1", sender := JVal.jstr "B", recipient := JVal.jstr "C",
    pubkey := JVal.jstr "aa", txsig := JVal.jstr "bb" }

/-- A self-transfer request (`sender == recipient`). -/
def exSelf : ExchangeData :=
  { book_id := JVal.jstr "b1", sender := JVal.jstr "A", recipient := JVal.jstr "A",
    pubkey := JVal.jstr "aa", txsig := JVal.jstr "bb" }

/-- A well-formed transfer of `b1` from its holder `A` to `B`, with garbage
(`zz`, not even hex) in the signature and public-key fields. -/
def exTransfer : ExchangeData :=
  { book_id := JVal.jstr "b1", sender := JVal.jstr "A", recipient := JVal.jstr "B",
    pubkey := JVal.jstr "zz", txsig := JVal.jstr "zz" }

/-- The library after applying `exTransfer` to `exLib`. -/
def exLib2 : Library :=
  ((Library.create_exchange exLib exTransfer "t1").getD ({ _library := [] }, false)).1

/-- A second chain carrying the already-used id `b1`. -/
def exDupChain : Chain := { id := JVal.jstr "b1", _chain := [] }

/-- The genesis payload used by the reachability witness. -/
def exPayload : List (String × JVal) :=
  [("sender", JVal.jnull), ("recipient", JVal.jstr "A")]

/-- The chain built by `Chain.__init__` from id `b1` and `exPayload`. -/
def exInitChain : Chain :=
  (Chain.init (JVal.jstr "b1") exPayload none "t0").getD { id := JVal.jnull, _chain := [] }

/-- The registry reached by adding `exInitChain` to the empty registry. -/
def exReachLib : Library := (Library.add_book { _library := [] } exInitChain).1

/-- The registry reached from `exReachLib` by the transfer `exTransfer`. -/
def exReachLib2 : Library :=
  ((Library.create_exchange exReachLib exTransfer "t1").getD ({ _library := [] }, false)).1

/-- The single book of `exReachLib2`. -/
def exReachBook : Chain :=
  exReachLib2._library.head?.getD { id := JVal.jnull, _chain := [] }

/-- A block whose `txsig` is not hexadecimal: `bytes.fromhex` raises on it. -/
def exBadBlock : Block := [("txsig", JVal.jstr "zz"), ("pubkey", JVal.jstr "30")]

/-- A block whose `txsig` and `pubkey` decode: verification reaches the
`try`-wrapped `verify` call. -/
def exGoodBlock : Block := [("txsig", JVal.jstr "00"), ("pubkey", JVal.jstr "30")]

/-- A second block linked to `exGen` by its recomputed hash. -/
def exLinked : Block :=
  [("index", JVal.jnat 2), ("previous_hash", JVal.jstr (Chain.hash exGen)),
   ("timestamp", JVal.jstr "t1"), ("sender", JVal.jstr "A"), ("recipient", JVal.jstr "B")]



/-! ## Order lemmas for the key sort -/
theorem charListLe_total : ∀ a b : List Char, charListLe a b = true ∨ charListLe b a = true := by
  intro a
  induction a with
  | nil => intro b; left; simp [charListLe]
  | cons x xs ih =>
    intro b
    cases b with
    | nil => right; simp [charListLe]
    | cons y ys =>
      rcases Nat.lt_trichotomy x.toNat y.toNat with h | h | h
      · left; simp [charListLe, h]
      · simpa [charListLe, h, Nat.lt_irrefl] using ih ys
      · right; simp [charListLe, h]

theorem charListLe_trans : ∀ a b c : List Char,
    charListLe a b = true → charListLe b c = true → charListLe a c = true := by
  intro a
  induction a with
  | nil => intro b c _ _; simp [charListLe]
  | cons x xs ih =>
    intro b c hab hbc
    cases b with
    | nil => simp [charListLe] at hab
    | cons y ys =>
      cases c with
      | nil => simp [charListLe] at hbc
      | cons z zs =>
        simp only [charListLe] at hab hbc ⊢
        rcases Nat.lt_trichotomy x.toNat y.toNat with hxy | hxy | hxy
        · rcases Nat.lt_trichotomy y.toNat z.toNat with hyz | hyz | hyz
          · simp [Nat.lt_trans hxy hyz]
          · simp [show x.toNat < z.toNat by omega]
          · rw [if_neg (Nat.lt_asymm hyz), if_pos hyz] at hbc
            simp at hbc
        · rcases Nat.lt_trichotomy y.toNat z.toNat with hyz | hyz | hyz
          · simp [show x.toNat < z.toNat by omega]
          · rw [if_neg (by omega), if_neg (by omega)] at hab
            rw [if_neg (by omega), if_neg (by omega)] at hbc
            rw [if_neg (by omega : ¬x.toNat < z.toNat), if_neg (by omega : ¬z.toNat < x.toNat)]
            exact ih ys zs hab hbc
          · rw [if_neg (Nat.lt_asymm hyz), if_pos hyz] at hbc
            simp at hbc
        · rw [if_neg (Nat.lt_asymm hxy), if_pos hxy] at hab
          simp at hab

theorem char_toNat_injective (x y : Char) (h : x.toNat = y.toNat) : x = y :=
  Char.eq_of_val_eq (UInt32.eq_of_toBitVec_eq (by
    have := congrArg (fun n => BitVec.ofNat 32 n) h
    simpa [Char.toNat, UInt32.toNat] using this))

theorem charListLe_antisymm : ∀ a b : List Char,
    charListLe a b = true → charListLe b a = true → a = b := by
  intro a
  induction a with
  | nil =>
    intro b _ hba
    cases b with
    | nil => rfl
    | cons y ys => simp [charListLe] at hba
  | cons x xs ih =>
    intro b hab hba
    cases b with
    | nil => simp [charListLe] at hab
    | cons y ys =>
      rcases Nat.lt_trichotomy x.toNat y.toNat with h | h | h
      · simp [charListLe, Nat.lt_asymm h, Nat.lt_irrefl, h] at hba
      · have hxy : x = y := char_toNat_injective x y h
        subst hxy
        have h1 : charListLe xs ys = true := by
          simpa [charListLe, Nat.lt_irrefl] using hab
        have h2 : charListLe ys xs = true := by
          simpa [charListLe, Nat.lt_irrefl] using hba
        rw [ih ys h1 h2]
      · simp [charListLe, Nat.lt_asymm h, Nat.lt_irrefl, h] at hab

instance : IsTotal (String × JVal) keyLe := ⟨fun a b => charListLe_total a.1.data b.1.data⟩

instance : IsTrans (String × JVal) keyLe :=
  ⟨fun a b c h1 h2 => charListLe_trans a.1.data b.1.data c.1.data h1 h2⟩
/-- A sorted association list with no duplicate keys is determined by its
multiset of entries: two sorted, key-nodup permutations are equal. -/
theorem sorted_nodup_perm_eq : ∀ (l1 l2 : List (String × JVal)),
    l1.Perm l2 → l1.Sorted keyLe → l2.Sorted keyLe →
    (l1.map Prod.fst).Nodup → l1 = l2 := by
  intro l1
  induction l1 with
  | nil =>
    intro l2 hp _ _ _
    exact (hp.nil_eq).symm ▸ rfl
  | cons a t1 ih =>
    intro l2 hp h1 h2 hn
    cases l2 with
    | nil => exact absurd (hp.symm.nil_eq) (by simp)
    | cons b t2 =>
      by_cases hab : a = b
      · subst hab
        have hp2 : t1.Perm t2 := hp.cons_inv
        have := ih t2 hp2 (List.sorted_cons.mp h1).2 (List.sorted_cons.mp h2).2
          (by simpa using (List.nodup_cons.mp (by simpa using hn)).2)
        rw [this]
      · exfalso
        have hbmem : b ∈ t1 := by
          have : b ∈ a :: t1 := hp.mem_iff.mpr (List.mem_cons_self b t2)
          rcases List.mem_cons.mp this with h | h
          · exact absurd h.symm hab
          · exact h
        have hamem : a ∈ t2 := by
          have : a ∈ b :: t2 := hp.mem_iff.mp (List.mem_cons_self a t1)
          rcases List.mem_cons.mp this with h | h
          · exact absurd h hab
          · exact h
        have hab1 : keyLe a b := (List.sorted_cons.mp h1).1 b hbmem
        have hba1 : keyLe b a := (List.sorted_cons.mp h2).1 a hamem
        have hkey : a.1 = b.1 :=
          String.ext (charListLe_antisymm a.1.data b.1.data hab1 hba1)
        have : a.1 ∈ t1.map Prod.fst := hkey ▸ List.mem_map_of_mem Prod.fst hbmem
        exact (List.nodup_cons.mp (by simpa using hn)).1 this

/-! ## C9: canonical hashing is construction-order independent -/

/-- C9: `Chain.hash` is deterministic and independent of field construction
order: two blocks holding the same key-value pairs (in any insertion order,
keys unrepeated) hash to the same digest, because serialization sorts the keys
before hashing. -/
theorem hash_independent_of_construction_order (b1 b2 : Block)
    (hnd : (b1.map Prod.fst).Nodup) (hp : b1.Perm b2) :
    Chain.hash b1 = Chain.hash b2 := by
  have hsort : sortByKey b1 = sortByKey b2 := by
    apply sorted_nodup_perm_eq
    · exact (List.perm_insertionSort keyLe b1).trans (hp.trans (List.perm_insertionSort keyLe b2).symm)
    · exact List.sorted_insertionSort keyLe b1
    · exact List.sorted_insertionSort keyLe b2
    · exact ((List.perm_insertionSort keyLe b1).map Prod.fst).nodup_iff.mpr hnd
  unfold Chain.hash
  rw [hsort]

/-- Witness for C9 at a concrete pair of permuted blocks. -/
theorem hash_independent_of_construction_order_witness :
    ([("sender", JVal.jstr "A"), ("recipient", JVal.jstr "B")].map Prod.fst).Nodup ∧
    List.Perm [("sender", JVal.jstr "A"), ("recipient", JVal.jstr "B")]
      [("recipient", JVal.jstr "B"), ("sender", JVal.jstr "A")] ∧
    Chain.hash [("sender", JVal.jstr "A"), ("recipient", JVal.jstr "B")]
      = Chain.hash [("recipient", JVal.jstr "B"), ("sender", JVal.jstr "A")] :=
  ⟨by decide, List.Perm.swap _ _ _, hash_independent_of_construction_order _ _
    (by decide) (List.Perm.swap _ _ _)⟩

/-! ## Basic lemmas on hashing, dicts and block construction -/

theorem sha256hex_ne_empty (s : String) : sha256hex s ≠ "" := by
  intro h
  have := congrArg String.data h
  simp [sha256hex] at this

theorem jtruthy_hash (b : Block) : jtruthy (JVal.jstr (Chain.hash b)) = true := by
  show (if Chain.hash b = "" then false else true) = true
  rw [if_neg (by unfold Chain.hash; exact sha256hex_ne_empty _)]

theorem dictLookup_none_of_forall {k : String} :
    ∀ {l : List (String × JVal)}, (∀ p ∈ l, p.1 ≠ k) → dictLookup k l = none := by
  intro l
  induction l with
  | nil => intro _; rfl
  | cons p rest ih =>
    intro h
    simp only [dictLookup]
    rw [if_neg (h p (List.mem_cons_self p rest))]
    exact ih (fun q hq => h q (List.mem_cons_of_mem p hq))

theorem domainPayload_keys {data : List (String × JVal)} (h : domainPayload data = true) :
    ∀ p ∈ data, p.1 = "sender" ∨ p.1 = "recipient" ∨ p.1 = "pubkey" ∨ p.1 = "txsig" := by
  intro p hp
  have := (List.all_eq_true.mp h) p hp
  simp at this
  tauto

theorem domainPayload_no_header {data : List (String × JVal)} (h : domainPayload data = true) :
    dictLookup "index" data = none ∧ dictLookup "previous_hash" data = none ∧
      dictLookup "timestamp" data = none := by
  refine ⟨?_, ?_, ?_⟩ <;>
    (apply dictLookup_none_of_forall;
     intro p hp;
     rcases domainPayload_keys h p hp with h1 | h1 | h1 | h1 <;> simp [h1])

theorem lookup_header_merge (iv ph tv : JVal) (data : List (String × JVal))
    (h : dictLookup "previous_hash" data = none) :
    dictLookup "previous_hash"
      (dictMerge [("index", iv), ("previous_hash", ph), ("timestamp", tv)] data)
      = some ph := by
  simp [dictMerge, dictLookup, h]

theorem new_block_success (c : Chain) (ph : JVal) (data : List (String × JVal)) (ts : String)
    (ht : jtruthy ph = true) (hd : data ≠ []) :
    Chain.new_block c ph data ts =
      some ({ c with _chain := c._chain ++
        [dictMerge [("index", JVal.jnat (c._chain.length + 1)),
          ("previous_hash", ph), ("timestamp", JVal.jstr ts)] data] },
        dictMerge [("index", JVal.jnat (c._chain.length + 1)),
          ("previous_hash", ph), ("timestamp", JVal.jstr ts)] data) := by
  simp [Chain.new_block, ht, hd]

/-- The genesis block a payload-built chain starts with. -/
theorem init_genesis_shape (id : JVal) (data : List (String × JVal)) (ts : String) (c : Chain)
    (hc : Chain.init id data none ts = some c) :
    data ≠ [] ∧
    c = { id := id, _chain := [dictMerge [("index", JVal.jnat 1),
      ("previous_hash", JVal.jnat 1), ("timestamp", JVal.jstr ts)] data] } := by
  by_cases hd : data = []
  · subst hd
    simp [Chain.init, Chain.new_block, jtruthy] at hc
  · refine ⟨hd, ?_⟩
    unfold Chain.init at hc
    rw [new_block_success _ _ _ _ (by rfl) hd] at hc
    simpa using hc.symm

theorem linkedFrom_append (rest : List Block) : ∀ (prev lb nb : Block),
    linkedFrom prev rest = true → (prev :: rest).getLast? = some lb →
    dictLookup "previous_hash" nb = some (JVal.jstr (Chain.hash lb)) →
    linkedFrom prev (rest ++ [nb]) = true := by
  induction rest with
  | nil =>
    intro prev lb nb _ hl hn
    simp only [List.getLast?_singleton, Option.some.injEq] at hl
    subst hl
    simp [linkedFrom, hn]
  | cons b rs ih =>
    intro prev lb nb h hl hn
    simp only [linkedFrom] at h ⊢
    rcases em (dictLookup "previous_hash" b = some (JVal.jstr (Chain.hash prev))) with hcond | hcond
    · rw [if_pos hcond] at h ⊢
      exact ih b lb nb h (by simpa [List.getLast?_cons_cons] using hl) hn
    · rw [if_neg hcond] at h
      exact absurd h (by simp)

theorem chainLinked_append (bs : List Block) (lb nb : Block)
    (h : chainLinked bs = true) (hl : bs.getLast? = some lb)
    (hn : dictLookup "previous_hash" nb = some (JVal.jstr (Chain.hash lb))) :
    chainLinked (bs ++ [nb]) = true := by
  cases bs with
  | nil => simp [chainLinked] at h
  | cons b rest =>
    simp only [List.cons_append, chainLinked] at h ⊢
    rcases em (dictLookup "previous_hash" b = some (JVal.jnat 1)) with hcond | hcond
    · rw [if_pos hcond] at h ⊢
      exact linkedFrom_append rest b lb nb h hl hn
    · rw [if_neg hcond] at h
      exact absurd h (by simp)

/-! ## Lemmas about the registry loops -/

theorem hasId_eq_false (idv : JVal) : ∀ books : List Chain,
    (∀ b ∈ books, b.id ≠ idv) → hasId idv books = false := by
  intro books
  induction books with
  | nil => intro _; rfl
  | cons b rest ih =>
    intro h
    simp only [hasId]
    rw [if_neg (h b (List.mem_cons_self b rest))]
    exact ih (fun q hq => h q (List.mem_cons_of_mem b hq))

theorem hasId_append_last (idv : JVal) (c : Chain) (hc : c.id = idv) :
    ∀ books : List Chain, hasId idv (books ++ [c]) = true := by
  intro books
  induction books with
  | nil => simp [hasId, hc]
  | cons b rest ih =>
    simp only [List.cons_append, hasId]
    by_cases hb : b.id = idv
    · rw [if_pos hb]
    · rw [if_neg hb]; exact ih

theorem exchangeLoop_false_eq (d : ExchangeData) (ts : String) :
    ∀ books books2 : List Chain,
    exchangeLoop d ts books = some (books2, false) → books2 = books := by
  intro books
  induction books with
  | nil =>
    intro books2 h
    simp only [exchangeLoop, Option.some.injEq, Prod.mk.injEq, and_true] at h
    exact h.symm
  | cons book rest ih =>
    intro books2 h
    simp only [exchangeLoop] at h
    by_cases hid : book.id = d.book_id
    · rw [if_pos hid] at h
      cases hlb : book.last_block with
      | none =>
        simp only [hlb] at h
        exact Option.noConfusion h
      | some lb =>
        simp only [hlb] at h
        by_cases hrec : (dictLookup "recipient" lb).getD JVal.jnull = d.sender
        · rw [if_pos hrec] at h
          rw [new_block_success book (JVal.jstr (Chain.hash lb)) (exchPayload d) ts
            (jtruthy_hash lb) (by simp [exchPayload])] at h
          simp at h
        · rw [if_neg hrec] at h
          obtain ⟨⟨ps, pb⟩, hp, hfp⟩ := Option.map_eq_some'.mp h
          simp only [Prod.mk.injEq] at hfp
          obtain ⟨h1, h2⟩ := hfp
          subst h2
          rw [← h1, ih ps hp]
    · rw [if_neg hid] at h
      obtain ⟨⟨ps, pb⟩, hp, hfp⟩ := Option.map_eq_some'.mp h
      simp only [Prod.mk.injEq] at hfp
      obtain ⟨h1, h2⟩ := hfp
      subst h2
      rw [← h1, ih ps hp]

theorem exchangeLoop_true_shape (d : ExchangeData) (ts : String) :
    ∀ books books2 : List Chain,
    exchangeLoop d ts books = some (books2, true) →
    ∃ bs1 book bs2 lb, books = bs1 ++ book :: bs2 ∧ book.id = d.book_id ∧
      book._chain.getLast? = some lb ∧
      (dictLookup "recipient" lb).getD JVal.jnull = d.sender ∧
      books2 = bs1 ++
        { book with _chain := book._chain ++ [exchBlock book lb d ts] } :: bs2 := by
  intro books
  induction books with
  | nil =>
    intro books2 h
    simp [exchangeLoop] at h
  | cons book rest ih =>
    intro books2 h
    simp only [exchangeLoop] at h
    by_cases hid : book.id = d.book_id
    · rw [if_pos hid] at h
      cases hlb : book.last_block with
      | none =>
        simp only [hlb] at h
        exact Option.noConfusion h
      | some lb =>
        simp only [hlb] at h
        by_cases hrec : (dictLookup "recipient" lb).getD JVal.jnull = d.sender
        · rw [if_pos hrec] at h
          rw [new_block_success book (JVal.jstr (Chain.hash lb)) (exchPayload d) ts
            (jtruthy_hash lb) (by simp [exchPayload])] at h
          simp only [Option.some.injEq, Prod.mk.injEq, and_true] at h
          refine ⟨[], book, rest, lb, by simp, hid, hlb, hrec, ?_⟩
          simp [← h, exchBlock]
        · rw [if_neg hrec] at h
          obtain ⟨⟨ps, pb⟩, hp, hfp⟩ := Option.map_eq_some'.mp h
          simp only [Prod.mk.injEq] at hfp
          obtain ⟨h1, h2⟩ := hfp
          subst h2
          obtain ⟨bs1, book0, bs2, lb0, hb, hi, hl, hr, hs⟩ := ih ps hp
          exact ⟨book :: bs1, book0, bs2, lb0, by simp [hb], hi, hl, hr,
            by simp [← h1, hs]⟩
    · rw [if_neg hid] at h
      obtain ⟨⟨ps, pb⟩, hp, hfp⟩ := Option.map_eq_some'.mp h
      simp only [Prod.mk.injEq] at hfp
      obtain ⟨h1, h2⟩ := hfp
      subst h2
      obtain ⟨bs1, book0, bs2, lb0, hb, hi, hl, hr, hs⟩ := ih ps hp
      exact ⟨book :: bs1, book0, bs2, lb0, by simp [hb], hi, hl, hr,
        by simp [← h1, hs]⟩

theorem exchangeLoop_all_mismatch (d : ExchangeData) (ts : String) :
    ∀ books : List Chain,
    (∀ b ∈ books, b.id = d.book_id →
      currentHolder b ≠ none ∧ currentHolder b ≠ some d.sender) →
    exchangeLoop d ts books = some (books, false) := by
  intro books
  induction books with
  | nil => intro _; rfl
  | cons book rest ih =>
    intro h
    have hrest := ih (fun q hq => h q (List.mem_cons_of_mem book hq))
    simp only [exchangeLoop]
    by_cases hid : book.id = d.book_id
    · rw [if_pos hid]
      have hb := h book (List.mem_cons_self book rest) hid
      split
      · next heq =>
          exfalso
          apply hb.1
          simp only [currentHolder, Chain.last_block] at heq ⊢
          rw [heq]
          rfl
      · next lb heq =>
          rw [if_neg ?_]
          · rw [hrest]
            rfl
          · intro hc
            apply hb.2
            simp only [currentHolder, Chain.last_block] at heq ⊢
            rw [heq]
            simp [hc]
    · rw [if_neg hid]
      rw [hrest]
      rfl

theorem create_exchange_false_eq (lib lib2 : Library) (d : ExchangeData) (ts : String)
    (h : Library.create_exchange lib d ts = some (lib2, false)) : lib2 = lib := by
  unfold Library.create_exchange at h
  by_cases hsr : d.sender = d.recipient
  · rw [if_pos hsr] at h
    simp only [Option.some.injEq, Prod.mk.injEq, and_true] at h
    exact h.symm
  · rw [if_neg hsr] at h
    obtain ⟨⟨ps, pb⟩, hp, hfp⟩ := Option.map_eq_some'.mp h
    simp only [Prod.mk.injEq] at hfp
    obtain ⟨h1, h2⟩ := hfp
    subst h2
    rw [← h1, exchangeLoop_false_eq d ts lib._library ps hp]

theorem create_exchange_true_shape (lib lib2 : Library) (d : ExchangeData) (ts : String)
    (h : Library.create_exchange lib d ts = some (lib2, true)) :
    d.sender ≠ d.recipient ∧
    ∃ bs1 book bs2 lb, lib._library = bs1 ++ book :: bs2 ∧ book.id = d.book_id ∧
      book._chain.getLast? = some lb ∧
      (dictLookup "recipient" lb).getD JVal.jnull = d.sender ∧
      lib2._library = bs1 ++
        { book with _chain := book._chain ++ [exchBlock book lb d ts] } :: bs2 := by
  unfold Library.create_exchange at h
  by_cases hsr : d.sender = d.recipient
  · rw [if_pos hsr] at h
    simp at h
  · rw [if_neg hsr] at h
    refine ⟨hsr, ?_⟩
    obtain ⟨⟨ps, pb⟩, hp, hfp⟩ := Option.map_eq_some'.mp h
    simp only [Prod.mk.injEq] at hfp
    obtain ⟨h1, h2⟩ := hfp
    subst h2
    obtain ⟨bs1, book, bs2, lb, hb, hi, hl, hr, hs⟩ :=
      exchangeLoop_true_shape d ts lib._library ps hp
    exact ⟨bs1, book, bs2, lb, hb, hi, hl, hr, by rw [← h1, hs]⟩

/-! ## C2: transfer from a non-holder fails and changes nothing -/

/-- C2: when the requested id names an existing chain but the declared sender
is not that chain's current holder (`last_block.get('recipient')`),
`create_exchange` fails (returns `False`, the source's only failure value) and
the registry is returned unchanged. -/
theorem create_exchange_not_current_holder (lib : Library) (d : ExchangeData) (ts : String)
    (hex : ∃ b ∈ lib._library, b.id = d.book_id)
    (hall : ∀ b ∈ lib._library, b.id = d.book_id →
      currentHolder b ≠ none ∧ currentHolder b ≠ some d.sender) :
    Library.create_exchange lib d ts = some (lib, false) := by
  unfold Library.create_exchange
  by_cases hsr : d.sender = d.recipient
  · rw [if_pos hsr]
  · rw [if_neg hsr]
    rw [exchangeLoop_all_mismatch d ts lib._library hall]
    rfl

/-- Witness for C2: book `b1` is held by `A`, the request declares sender `B`. -/
theorem create_exchange_not_current_holder_witness :
    (∃ b ∈ exLib._library, b.id = exMismatch.book_id) ∧
    (∀ b ∈ exLib._library, b.id = exMismatch.book_id →
      currentHolder b ≠ none ∧ currentHolder b ≠ some exMismatch.sender) ∧
    Library.create_exchange exLib exMismatch "t1" = some (exLib, false) :=
  ⟨by decide, by decide,
    create_exchange_not_current_holder exLib exMismatch "t1" (by decide) (by decide)⟩

/-! ## C5: self-transfers fail and change nothing -/

/-- C5: whenever the request's sender equals its recipient, `create_exchange`
fails (returns `False`) with the registry unchanged, whether or not the
requested id exists — the check precedes the book lookup. -/
theorem create_exchange_self_transfer (lib : Library) (d : ExchangeData) (ts : String)
    (h : d.sender = d.recipient) :
    Library.create_exchange lib d ts = some (lib, false) := by
  unfold Library.create_exchange
  rw [if_pos h]

/-- Witness for C5, once on a registry that stores the requested id and once on
an empty registry. -/
theorem create_exchange_self_transfer_witness :
    exSelf.sender = exSelf.recipient ∧
    Library.create_exchange exLib exSelf "t1" = some (exLib, false) ∧
    Library.create_exchange { _library := [] } exSelf "t1" =
      some ({ _library := [] }, false) :=
  ⟨rfl, create_exchange_self_transfer exLib exSelf "t1" rfl,
    create_exchange_self_transfer { _library := [] } exSelf "t1" rfl⟩

/-! ## C6: adding a book is exactly-once per id -/

/-- C6: `add_book` with a fresh id appends the chain and succeeds, and a second
`add_book` with the already-used id fails (returns `False`) leaving the
registry's chains unchanged. -/
theorem add_book_exactly_once (lib : Library) (c c2 : Chain)
    (hfresh : ∀ b ∈ lib._library, b.id ≠ c.id) (hid : c2.id = c.id) :
    Library.add_book lib c = ({ _library := lib._library ++ [c] }, true) ∧
    Library.add_book { _library := lib._library ++ [c] } c2 =
      ({ _library := lib._library ++ [c] }, false) := by
  constructor
  · unfold Library.add_book
    rw [if_neg (by rw [hasId_eq_false c.id lib._library hfresh]; simp)]
  · unfold Library.add_book
    rw [if_pos (by rw [hid]; exact hasId_append_last c.id c rfl lib._library)]

/-- Witness for C6: adding `exBook` to the empty registry, then a second chain
with the same id `b1`. -/
theorem add_book_exactly_once_witness :
    (∀ b ∈ ({ _library := [] } : Library)._library, b.id ≠ exBook.id) ∧
    exDupChain.id = exBook.id ∧
    Library.add_book { _library := [] } exBook = ({ _library := [exBook] }, true) ∧
    Library.add_book { _library := [exBook] } exDupChain =
      ({ _library := [exBook] }, false) := by
  refine ⟨by simp, rfl, ?_, ?_⟩
  · simpa using (add_book_exactly_once { _library := [] } exBook exDupChain
      (by simp) rfl).1
  · simpa using (add_book_exactly_once { _library := [] } exBook exDupChain
      (by simp) rfl).2

/-! ## C7: chain creation with an empty genesis payload crashes -/

/-- C7: evaluation at the failing input: `Chain(id='b1', data=None)` — creating
a chain with an empty genesis payload.  `new_block` only assigns its local
`block` under `if data:`, so the following `append(block)` raises
`UnboundLocalError` (modelled by `none`) instead of building the genesis
block the claim (and the source's own "extra data is optional" comments)
promise. -/
theorem chain_create_empty_payload_fails :
    Chain.init (JVal.jstr "b1") [] none "t0" = none ∧
    Chain.init (JVal.jstr "b1") [] none "t0" ≠
      some { id := JVal.jstr "b1", _chain := [[("index", JVal.jnat 1),
        ("previous_hash", JVal.jnat 1), ("timestamp", JVal.jstr "t0")]] } :=
  ⟨rfl, by decide⟩

/-! ## C4: linkage validation -/

/-- Counterexample to C4 as stated: on the empty chain, `valid_chain` does not
succeed — `chain[0]` raises `IndexError` (modelled by `none`). -/
theorem valid_chain_empty_raises :
    Chain.valid_chain [] = none ∧ Chain.valid_chain [] ≠ some true :=
  ⟨rfl, by decide⟩

/-- C4 (amended): for every nonempty chain whose blocks after the first all
carry a `previous_hash` field, `valid_chain` returns `True` exactly when every
later block's `previous_hash` equals the recomputed hash of its predecessor;
in particular a single-genesis chain is valid.  (The empty chain raises
`IndexError`, and a missing `previous_hash` raises `KeyError`.) -/
theorem valid_chain_iff_linked (rest : List Block) : ∀ b : Block,
    rest.all (fun x => (dictLookup "previous_hash" x).isSome) = true →
    (Chain.valid_chain (b :: rest) = some true ↔ linkedFrom b rest = true) := by
  induction rest with
  | nil =>
    intro b _
    simp [Chain.valid_chain, validGo, linkedFrom]
  | cons x xs ih =>
    intro b h
    simp only [List.all_cons, Bool.and_eq_true] at h
    obtain ⟨hx, hxs⟩ := h
    obtain ⟨ph, hph⟩ := Option.isSome_iff_exists.mp hx
    show validGo b (x :: xs) = some true ↔ _
    simp only [validGo, linkedFrom, hph]
    by_cases he : ph = JVal.jstr (Chain.hash b)
    · subst he
      rw [if_neg (by simp), if_pos rfl]
      exact ih x hxs
    · rw [if_pos he, if_neg (by simpa using he)]
      simp

/-- Witness for C4 at a two-block chain whose second block is linked by the
recomputed hash, and at the single-genesis chain. -/
theorem valid_chain_iff_linked_witness :
    [exLinked].all (fun x => (dictLookup "previous_hash" x).isSome) = true ∧
    (Chain.valid_chain (exGen :: [exLinked]) = some true ↔
      linkedFrom exGen [exLinked] = true) ∧
    (Chain.valid_chain (exGen :: []) = some true ↔ linkedFrom exGen [] = true) :=
  ⟨by decide, valid_chain_iff_linked [exLinked] exGen (by decide),
    valid_chain_iff_linked [] exGen (by decide)⟩

theorem domainPayload_exchPayload (d : ExchangeData) :
    domainPayload (exchPayload d) = true := rfl

/-! ## C10: frame of a successful exchange -/

/-- C10: a successful `create_exchange` for id X appends exactly one block —
the header merged with exactly the four request fields `sender`, `recipient`,
`pubkey`, `txsig` (see `exchBlock`/`exchPayload`) — to the chain whose id is X,
leaves every other stored chain untouched, and preserves the registry's list of
book ids. -/
theorem create_exchange_success_frame (lib lib2 : Library) (d : ExchangeData) (ts : String)
    (h : Library.create_exchange lib d ts = some (lib2, true)) :
    lib2._library.map Chain.id = lib._library.map Chain.id ∧
    ∃ bs1 book bs2 lb, lib._library = bs1 ++ book :: bs2 ∧ book.id = d.book_id ∧
      book._chain.getLast? = some lb ∧
      lib2._library = bs1 ++
        { book with _chain := book._chain ++ [exchBlock book lb d ts] } :: bs2 := by
  obtain ⟨-, bs1, book, bs2, lb, hb, hi, hl, -, hs⟩ :=
    create_exchange_true_shape lib lib2 d ts h
  refine ⟨?_, bs1, book, bs2, lb, hb, hi, hl, hs⟩
  rw [hs, hb]
  simp

/-- Witness for C10 at the concrete transfer `exTransfer` on `exLib`. -/
theorem create_exchange_success_frame_witness :
    Library.create_exchange exLib exTransfer "t1" = some (exLib2, true) ∧
    (exLib2._library.map Chain.id = exLib._library.map Chain.id ∧
     ∃ bs1 book bs2 lb, exLib._library = bs1 ++ book :: bs2 ∧
       book.id = exTransfer.book_id ∧ book._chain.getLast? = some lb ∧
       exLib2._library = bs1 ++
         { book with _chain := book._chain ++ [exchBlock book lb exTransfer "t1"] } :: bs2) :=
  ⟨rfl, create_exchange_success_frame exLib exLib2 exTransfer "t1" rfl⟩

/-! ## C1: the hash-chain linkage invariant holds on reachable registries -/

/-- C1: in every registry reachable through the core operations — chains
created from a (domain-field) genesis payload and transfers applied by
`create_exchange` — every stored chain satisfies the linkage invariant: the
first block's `previous_hash` is the genesis sentinel `1` and each later
block's `previous_hash` is the recomputed hash of its predecessor. -/
theorem reachable_chains_linked (lib : Library) (hr : Reach lib) :
    ∀ c ∈ lib._library, chainLinked c._chain = true := by
  induction hr with
  | empty =>
    intro c hc
    simp at hc
  | add lib0 id data ts c0 hr0 hd hc ih =>
    intro c hcmem
    unfold Library.add_book at hcmem
    by_cases hdup : hasId c0.id lib0._library = true
    · rw [if_pos hdup] at hcmem
      exact ih c hcmem
    · rw [if_neg hdup] at hcmem
      simp only [List.mem_append, List.mem_singleton] at hcmem
      rcases hcmem with hmem | hmem
      · exact ih c hmem
      · subst hmem
        obtain ⟨hdne, hshape⟩ := init_genesis_shape id data ts c hc
        rw [hshape]
        have hl := lookup_header_merge (JVal.jnat 1) (JVal.jnat 1) (JVal.jstr ts) data
          (domainPayload_no_header hd).2.1
        simp [chainLinked, linkedFrom, hl]
  | exch lib0 lib2 d ts r hr0 he ih =>
    intro c hcmem
    cases r with
    | false =>
      rw [show lib2 = lib0 from create_exchange_false_eq lib0 lib2 d ts he] at hcmem
      exact ih c hcmem
    | true =>
      obtain ⟨-, bs1, book, bs2, lb, hb, hi, hl, hr2, hs⟩ :=
        create_exchange_true_shape lib0 lib2 d ts he
      rw [hs] at hcmem
      simp only [List.mem_append, List.mem_cons] at hcmem
      rcases hcmem with hmem | hmem | hmem
      · exact ih c (by rw [hb]; exact List.mem_append_left _ hmem)
      · subst hmem
        show chainLinked (book._chain ++ [exchBlock book lb d ts]) = true
        apply chainLinked_append book._chain lb (exchBlock book lb d ts)
        · exact ih book (by
            rw [hb]
            exact List.mem_append_right _ (List.mem_cons_self book bs2))
        · exact hl
        · show dictLookup "previous_hash" (dictMerge _ (exchPayload d)) = _
          exact lookup_header_merge _ _ _ (exchPayload d)
            (domainPayload_no_header (domainPayload_exchPayload d)).2.1
      · exact ih c (by
          rw [hb]
          exact List.mem_append_right _ (List.mem_cons_of_mem _ hmem))

/-- Witness for C1: the registry reached by creating book `b1` with a genesis
payload, adding it, and transferring it from `A` to `B`; its stored chain
satisfies the invariant. -/
theorem reachable_chains_linked_witness :
    chainLinked exReachBook._chain = true := by
  have h0 : Reach ({ _library := [] } : Library) := Reach.empty
  have h1 : Reach exReachLib :=
    Reach.add { _library := [] } (JVal.jstr "b1") exPayload "t0" exInitChain h0
      (by decide) rfl
  have h2 : Reach exReachLib2 :=
    Reach.exch exReachLib exReachLib2 exTransfer "t1" true h1 rfl
  exact reachable_chains_linked exReachLib2 h2 exReachBook (by decide)

/-! ## C3: transfers are accepted without any signature verification -/

/-- C3: evaluation at the failing input: the transfer `exTransfer` carries a
signature and public key that are not even hexadecimal (`"zz"`), yet
`create_exchange` accepts it and appends the block (chain grows to length 2);
running the node's own `verify_block` on the appended block does not return
`True` — it raises (`none`), since the stored signature cannot be decoded.
`create_exchange` never consults `verify_block` or the signature fields at
all. -/
theorem create_exchange_without_verification :
    (Library.create_exchange exLib exTransfer "t1").map Prod.snd = some true ∧
    exLib2._library.map (fun b => b._chain.length) = [2] ∧
    (exLib2._library.head?.bind (fun b => b._chain.getLast?)).map Node.verify_block
      = some (none : Option Bool) :=
  ⟨rfl, rfl, rfl⟩

/-! ## C8: fault behavior of verify_block -/

/-- Counterexample to C8 as stated: a block whose `txsig` is not hexadecimal
does not make `verify_block` return `False` — `bytes.fromhex` is evaluated
outside the `try` and its `ValueError` propagates (modelled by `none`). -/
theorem verify_block_malformed_raises :
    Node.verify_block exBadBlock = none ∧ Node.verify_block exBadBlock ≠ some false :=
  ⟨rfl, by decide⟩

/-- C8 (amended): `verify_block` returns a boolean outcome — the result of the
`try`-wrapped cryptographic verification, mismatch included — for every block
whose `txsig` and `pubkey` fields are hex strings that decode and whose public
key deserializes; for malformed inputs the decoding exceptions propagate to
the caller instead of yielding `False`. -/
theorem verify_block_boolean_when_decodable (block : Block) (t p : String)
    (tb pb : List Nat) (k : ECPubKey)
    (h1 : dictLookup "txsig" block = some (JVal.jstr t))
    (h2 : bytesFromHex t = some tb)
    (h3 : dictLookup "pubkey" block = some (JVal.jstr p))
    (h4 : bytesFromHex p = some pb)
    (h5 : load_der_public_key pb = some k) :
    Node.verify_block block = some (ecdsaVerify k tb authMessageBytes) := by
  simp [Node.verify_block, h1, h2, h3, h4, h5]

/-- Witness for C8 on a block with decodable `txsig` and `pubkey`. -/
theorem verify_block_boolean_when_decodable_witness :
    dictLookup "txsig" exGoodBlock = some (JVal.jstr "00") ∧
    bytesFromHex "00" = some [0] ∧
    dictLookup "pubkey" exGoodBlock = some (JVal.jstr "30") ∧
    bytesFromHex "30" = some [48] ∧
    load_der_public_key [48] = some ⟨[48]⟩ ∧
    Node.verify_block exGoodBlock = some (ecdsaVerify ⟨[48]⟩ [0] authMessageBytes) :=
  ⟨rfl, rfl, rfl, rfl, rfl,
    verify_block_boolean_when_decodable exGoodBlock "00" "30" [0] [48] ⟨[48]⟩
      rfl rfl rfl rfl rfl⟩
